import Mathlib

/-!
Shallow embedding of `rewd_controllers/src/gravity_compensation_controller.cpp`
(`GravityCompensationController::init` and `GravityCompensationController::update`).

The external DART dynamics engine is modelled abstractly:
* a skeleton is the ordered list of its degrees of freedom, each carrying the
  mutable per-DOF state the controller touches (position, velocity,
  acceleration, generalized force); values are `Rat` in place of `double`,
  since every claim is structural rather than numeric;
* `skeleton_->getDof(name)` is a by-name search returning the index of the
  first matching DOF (modelling the returned pointer);
* the controlled `dart::dynamics::Group` is the list of skeleton indices of
  the DOFs added to it, in insertion order (a group stores references into
  the skeleton, so reading a force through the group after the solve sees the
  solved value);
* `computeInverseDynamics` delegates the numerics to DART, so it is taken as
  an arbitrary parameter `solve` giving each DOF's generalized force as a
  function of the whole pre-solve skeleton state; the embedding records only
  what the controller relies on: the solve writes every DOF's force and
  leaves positions, velocities and accelerations untouched;
* the ROS parameter server and the hardware interfaces are finite maps /
  name lists; acquiring a handle succeeds exactly when the joint name is
  listed, modelling `getHandle` throwing `HardwareInterfaceException`
  otherwise; reading a handle's position/velocity at a tick is an arbitrary
  assignment `sensed : String → Rat × Rat` of sensed values to joint names;
  `setCommand` calls are recorded as the ordered trace of
  (joint name, torque) pairs `update` emits.
-/

namespace RewdControllers

/-- One degree of freedom of the DART skeleton: its name and the mutable
per-DOF state the controller reads and writes. -/
structure Dof where
  name : String
  pos : Rat
  vel : Rat
  accel : Rat
  force : Rat
deriving DecidableEq

/-- Embeds `skeleton_->getDof(dof_name)`: by-name lookup over the skeleton's DOFs,
returning the index of the first DOF with that name, or `none` for the null
pointer when no DOF has the name. -/
def getDofIdx : List Dof → String → Option Nat
  | [], _ => none
  | d :: ds, nm => if d.name = nm then some 0 else (getDofIdx ds nm).map (· + 1)

/-- In-place mutation of the DOF object at a given skeleton index
(writing through a `DegreeOfFreedom*`). Out-of-range indices leave the
skeleton unchanged (never reached: indices come from `getDofIdx`). -/
def updNth (f : Dof → Dof) : Nat → List Dof → List Dof
  | _, [] => []
  | 0, d :: ds => f d :: ds
  | n + 1, d :: ds => d :: updNth f n ds

/-- Errors at the `return false` sites of `init`, in program order. -/
inductive InitError where
  | missingRobotDescription (key : String)
  | parseFailure (key : String)
  | missingJointsParam
  | noDofNamed (name : String)
  | noJointHandle (name : String)
deriving DecidableEq

/-- The ROS node handle: the string-valued parameters visible to the node and
the string-list-valued `joints` parameter. -/
structure NodeHandle where
  strParams : List (String × String)
  jointsParam : Option (List String)

/-- The hardware abstraction: the joint names for which an
`EffortJointInterface` command handle exists, and the joint names for which a
`JointStateInterface` read-only handle exists (`getHandle` throws for any
other name). -/
structure RobotHW where
  effortJointNames : List String
  jointStateNames : List String

/-- Embeds `n.getParam(key, out)` for a string parameter. -/
def lookupParam (n : NodeHandle) (key : String) : Option String :=
  (n.strParams.find? (fun p => p.1 = key)).map (·.2)

/-- Embeds `n.param<std::string>("robot_description_parameter", out, "/robot_description")`:
the key under which the URDF is looked up, defaulting when the option is
unset. -/
def resolvedDescriptionKey (n : NodeHandle) : String :=
  (lookupParam n "robot_description_parameter").getD "/robot_description"

/-- Embeds a `controlled_joint_map_` lookup (`std::map<std::string, size_t>`). -/
def jmapLookup (m : List (String × Nat)) (k : String) : Option Nat :=
  (m.find? (fun p => p.1 = k)).map (·.2)

/-- Embeds `controlled_joint_map_.emplace(k, v)`: inserts only when the key is not
already present. -/
def emplace (m : List (String × Nat)) (k : String) (v : Nat) : List (String × Nat) :=
  if (jmapLookup m k).isSome then m else m ++ [(k, v)]

/-- Embeds `dof->getName()` for the DOF object at a skeleton index. -/
def dofNameAt (skel : List Dof) (i : Nat) : String :=
  (skel[i]?.map Dof.name).getD ""

/-- The controlled-DOF resolution loop of `init`: for each configured name,
`skeleton_->getDof(dof_name)`; on a null result, `return false`
(`InitError.noDofNamed`); otherwise `controlled_skeleton_->addDof(dof)` and
`controlled_joint_map_.emplace(dof->getName(), numDofs - 1)`. `group` and
`jmap` accumulate `controlled_skeleton_` (as skeleton indices) and
`controlled_joint_map_`. -/
def resolveDofs (skel : List Dof) (group : List Nat) (jmap : List (String × Nat)) :
    List String → Except InitError (List Nat × List (String × Nat))
  | [] => .ok (group, jmap)
  | nm :: rest =>
    match getDofIdx skel nm with
    | none => .error (.noDofNamed nm)
    | some i =>
      resolveDofs skel (group ++ [i])
        (emplace jmap nm ((group ++ [i]).length - 1)) rest

/-- The controlled-handle acquisition loop of `init`: for each DOF of
`controlled_skeleton_`, `ei->getHandle(dof->getName())`; a
`HardwareInterfaceException` aborts with `return false`
(`InitError.noJointHandle`), otherwise the handle is pushed onto
`controlled_joint_handles_` (modelled by its joint name). -/
def acquireHandles (skel : List Dof) (hw : RobotHW) :
    List Nat → Except InitError (List String)
  | [] => .ok []
  | i :: rest =>
    let nm := dofNameAt skel i
    if nm ∈ hw.effortJointNames then
      (acquireHandles skel hw rest).map (nm :: ·)
    else
      .error (.noJointHandle nm)

/-- The state-handle acquisition loop of `init`: for every DOF of the full
skeleton, `jsi->getHandle(dof->getName())`; a `HardwareInterfaceException`
only warns and `continue`s, otherwise the handle is pushed onto
`joint_state_handles_` (modelled by its joint name). -/
def acquireStateHandles (hw : RobotHW) (skel : List Dof) : List String :=
  (skel.map Dof.name).filter (fun nm => nm ∈ hw.jointStateNames)

/-- The controller's member state after a successful `init`. -/
structure ControllerState where
  /-- The `skeleton_` member. -/
  skeleton : List Dof
  /-- The `controlled_skeleton_` member, as skeleton indices of its DOFs in order. -/
  controlledIdx : List Nat
  /-- The `controlled_joint_map_` member. -/
  controlledJointMap : List (String × Nat)
  /-- The `controlled_joint_handles_` member, each handle by its joint name. -/
  controlledHandleNames : List String
  /-- The `joint_state_handles_` member, each handle by its joint name. -/
  stateHandleNames : List String
deriving DecidableEq

/-- Embeds `GravityCompensationController::init`, parameterized by the external URDF
parser (`DartLoader::parseSkeletonString`, which yields a skeleton or null).
Returns the member state on success, or the error of the first failing
check. -/
def init (parseSkeletonString : String → Option (List Dof)) (hw : RobotHW)
    (n : NodeHandle) : Except InitError ControllerState :=
  let key := resolvedDescriptionKey n
  match lookupParam n key with
  | none => .error (.missingRobotDescription key)
  | some robotDescription =>
    match parseSkeletonString robotDescription with
    | none => .error (.parseFailure key)
    | some skeleton =>
      match n.jointsParam with
      | none => .error .missingJointsParam
      | some dofNames =>
        match resolveDofs skeleton [] [] dofNames with
        | .error e => .error e
        | .ok (group, jmap) =>
          match acquireHandles skeleton hw group with
          | .error e => .error e
          | .ok handleNames =>
            .ok { skeleton := skeleton
                  controlledIdx := group
                  controlledJointMap := jmap
                  controlledHandleNames := handleNames
                  stateHandleNames := acquireStateHandles hw skeleton }

/-- The body of the first `update` loop for one controlled handle:
`dof->setPosition(handle.getPosition()); dof->setVelocity(handle.getVelocity());
dof->setAcceleration(0.)` on the DOF the sensed values belong to. -/
def writeDofState (sensed : String → Rat × Rat) (nm : String) (d : Dof) : Dof :=
  { d with pos := (sensed nm).1, vel := (sensed nm).2, accel := 0 }

/-- One iteration of the first `update` loop: look the handle's joint up in
the full skeleton by name; on a null DOF, `continue` (the defensive skip);
otherwise write sensed position, sensed velocity and zero acceleration. -/
def syncStep (sensed : String → Rat × Rat) (skel : List Dof) (nm : String) :
    List Dof :=
  match getDofIdx skel nm with
  | none => skel
  | some i => updNth (writeDofState sensed nm) i skel

/-- The first `update` loop over `controlled_joint_handles_`. -/
def writeSensedState (sensed : String → Rat × Rat) (skel : List Dof)
    (handles : List String) : List Dof :=
  handles.foldl (syncStep sensed) skel

/-- Helper for `computeInverseDynamics`: write force `forces (start + i)` into
the DOF at offset `i`. -/
def setForcesFrom (forces : Nat → Rat) : Nat → List Dof → List Dof
  | _, [] => []
  | start, d :: ds => { d with force := forces start } :: setForcesFrom forces (start + 1) ds

/-- Embeds `skeleton_->computeInverseDynamics()`: the external DART solve writes
every DOF's generalized force as a function `solve` of the whole current
skeleton state, and touches nothing else. -/
def computeInverseDynamics (solve : List Dof → Nat → Rat) (skel : List Dof) :
    List Dof :=
  setForcesFrom (solve skel) 0 skel

/-- Embeds `dof->getForce()` through the controlled group's reference to the DOF at
a skeleton index. -/
def readForce (skel : List Dof) (i : Nat) : Rat :=
  (skel[i]?.map Dof.force).getD 0

/-- Embeds `GravityCompensationController::update`, parameterized by the external
solve and by the hardware's sensed (position, velocity) per joint name at
this tick. Returns the controller state after the tick together with the
ordered trace of `setCommand(effort)` calls as (joint name, torque) pairs:
the second loop runs `i` over `controlled_skeleton_->getNumDofs()`, reads
`controlled_skeleton_->getDof(i)->getForce()` and writes it through
`controlled_joint_handles_[i]`. -/
def update (solve : List Dof → Nat → Rat) (sensed : String → Rat × Rat)
    (st : ControllerState) : ControllerState × List (String × Rat) :=
  let skel1 := writeSensedState sensed st.skeleton st.controlledHandleNames
  let skel2 := computeInverseDynamics solve skel1
  let cmds := (List.range st.controlledIdx.length).map fun i =>
    (st.controlledHandleNames.getD i "", readForce skel2 (st.controlledIdx.getD i 0))
  ({ st with skeleton := skel2 }, cmds)

/-- A run of consecutive ticks: `update` invoked once per element of
`sensedSeq`, threading the controller state. -/
def runTicks (solve : List Dof → Nat → Rat) (st : ControllerState) :
    List (String → Rat × Rat) → ControllerState
  | [] => st
  | sensed :: rest => runTicks solve (update solve sensed st).1 rest

/-- First-occurrence index of a name in a list of names (spec side: the
position a controlled name holds in the configured `joints` list). -/
def idxOfName : List String → String → Option Nat
  | [], _ => none
  | s :: ss, nm => if s = nm then some 0 else (idxOfName ss nm).map (· + 1)

/-! ### Concrete test fixtures -/

/-- A concrete three-DOF skeleton: `shoulder`, `elbow`, `wrist`. -/
def wSkel : List Dof :=
  [{ name := "shoulder", pos := 1, vel := 2, accel := 3, force := 4 },
   { name := "elbow", pos := 5, vel := 6, accel := 7, force := 8 },
   { name := "wrist", pos := 9, vel := 10, accel := 11, force := 12 }]

/-- A concrete controller state: `shoulder` and `elbow` controlled, `wrist`
read-only. -/
def wState : ControllerState :=
  { skeleton := wSkel
    controlledIdx := [0, 1]
    controlledJointMap := [("shoulder", 0), ("elbow", 1)]
    controlledHandleNames := ["shoulder", "elbow"]
    stateHandleNames := ["wrist"] }

/-- Concrete sensed values per joint name. -/
def wSensed : String → Rat × Rat :=
  fun nm => if nm = "shoulder" then (20, 21) else (22, 23)

/-- A concrete stand-in for the external inverse-dynamics solve. -/
def wSolve : List Dof → Nat → Rat :=
  fun skel i => (skel.map Dof.pos).sum + i

/-- A concrete stand-in for the external URDF parser. -/
def wParse : String → Option (List Dof) :=
  fun s => if s = "urdf" then some wSkel else none

/-- Concrete hardware: command handles for the two controlled joints, a
state handle for `wrist` only. -/
def wHW : RobotHW :=
  { effortJointNames := ["shoulder", "elbow"], jointStateNames := ["wrist"] }

/-- Concrete configuration: the URDF under the default key, two controlled
joints. -/
def wNode : NodeHandle :=
  { strParams := [("/robot_description", "urdf")]
    jointsParam := some ["shoulder", "elbow"] }

/-- A controller state desynchronized from its model: the `shoulder` DOF was
renamed in the skeleton after `init`, so its per-tick by-name lookup fails
while the controlled group still references the DOF object. -/
def wStale : ControllerState :=
  { skeleton := [{ name := "renamed", pos := 1, vel := 2, accel := 3, force := 4 }]
    controlledIdx := [0]
    controlledJointMap := [("shoulder", 0)]
    controlledHandleNames := ["shoulder"]
    stateHandleNames := [] }

/-! ### Basic lemmas about the embedded operations -/

theorem length_updNth (f : Dof → Dof) (n : Nat) (l : List Dof) :
    (updNth f n l).length = l.length := by
  induction l generalizing n with
  | nil => cases n <;> rfl
  | cons d ds ih => cases n <;> simp [updNth, ih]

theorem getElem?_updNth_self (f : Dof → Dof) (n : Nat) (l : List Dof) :
    (updNth f n l)[n]? = l[n]?.map f := by
  induction l generalizing n with
  | nil => cases n <;> rfl
  | cons d ds ih => cases n <;> simp [updNth, ih]

theorem getElem?_updNth_ne (f : Dof → Dof) {m n : Nat} (h : m ≠ n) (l : List Dof) :
    (updNth f n l)[m]? = l[m]? := by
  induction l generalizing m n with
  | nil => cases n <;> rfl
  | cons d ds ih =>
    cases n with
    | zero =>
      cases m with
      | zero => exact absurd rfl h
      | succ m => simp [updNth]
    | succ n =>
      cases m with
      | zero => simp [updNth]
      | succ m => simpa [updNth] using ih (fun hmn => h (by simp [hmn]))

theorem getDofIdx_eq_idxOfName (l : List Dof) (nm : String) :
    getDofIdx l nm = idxOfName (l.map Dof.name) nm := by
  induction l with
  | nil => rfl
  | cons d ds ih => simp [getDofIdx, idxOfName, ih]

theorem idxOfName_isSome_iff_mem (l : List String) (nm : String) :
    (idxOfName l nm).isSome ↔ nm ∈ l := by
  induction l with
  | nil => simp [idxOfName]
  | cons s ss ih =>
    by_cases h : s = nm
    · simp [idxOfName, h]
    · have h' : nm ≠ s := fun hn => h hn.symm
      simp [idxOfName, h, ih, h']

theorem idxOfName_eq_none_of_not_mem {l : List String} {nm : String}
    (h : nm ∉ l) : idxOfName l nm = none := by
  rcases ho : idxOfName l nm with _ | i
  · rfl
  · exact absurd ((idxOfName_isSome_iff_mem l nm).mp (by simp [ho])) h

theorem getDofIdx_spec {skel : List Dof} {nm : String} {i : Nat}
    (h : getDofIdx skel nm = some i) :
    ∃ d, skel[i]? = some d ∧ d.name = nm := by
  induction skel generalizing i with
  | nil => simp [getDofIdx] at h
  | cons d ds ih =>
    by_cases hd : d.name = nm
    · simp [getDofIdx, hd] at h
      exact ⟨d, by simp [← h], hd⟩
    · simp [getDofIdx, hd] at h
      rcases h with ⟨j, hj, hji⟩
      rcases ih hj with ⟨d', hd', hnm⟩
      exact ⟨d', by simp [← hji, hd'], hnm⟩

theorem map_name_updNth (f : Dof → Dof) (hf : ∀ d, (f d).name = d.name)
    (n : Nat) (l : List Dof) : (updNth f n l).map Dof.name = l.map Dof.name := by
  induction l generalizing n with
  | nil => cases n <;> rfl
  | cons d ds ih => cases n <;> simp [updNth, hf, ih]

theorem map_name_syncStep (sensed : String → Rat × Rat) (skel : List Dof)
    (nm : String) : (syncStep sensed skel nm).map Dof.name = skel.map Dof.name := by
  rcases h : getDofIdx skel nm with _ | i
  · simp [syncStep, h]
  · simp only [syncStep, h]
    exact map_name_updNth (writeDofState sensed nm) (fun d => rfl) i skel

theorem map_name_writeSensedState (sensed : String → Rat × Rat)
    (skel : List Dof) (handles : List String) :
    (writeSensedState sensed skel handles).map Dof.name = skel.map Dof.name := by
  induction handles generalizing skel with
  | nil => rfl
  | cons h hs ih =>
    calc (writeSensedState sensed (syncStep sensed skel h) hs).map Dof.name
        = (syncStep sensed skel h).map Dof.name := ih _
      _ = skel.map Dof.name := map_name_syncStep sensed skel h

theorem getDofIdx_syncStep (sensed : String → Rat × Rat) (skel : List Dof)
    (nm nm' : String) : getDofIdx (syncStep sensed skel nm) nm' = getDofIdx skel nm' := by
  rw [getDofIdx_eq_idxOfName, getDofIdx_eq_idxOfName, map_name_syncStep]

theorem getDofIdx_writeSensedState (sensed : String → Rat × Rat)
    (skel : List Dof) (handles : List String) (nm : String) :
    getDofIdx (writeSensedState sensed skel handles) nm = getDofIdx skel nm := by
  rw [getDofIdx_eq_idxOfName, getDofIdx_eq_idxOfName, map_name_writeSensedState]

theorem getDofIdx_none_of_not_mem {skel : List Dof} {nm : String}
    (h : nm ∉ skel.map Dof.name) : getDofIdx skel nm = none := by
  rw [getDofIdx_eq_idxOfName]
  exact idxOfName_eq_none_of_not_mem h

theorem length_setForcesFrom (forces : Nat → Rat) (start : Nat) (l : List Dof) :
    (setForcesFrom forces start l).length = l.length := by
  induction l generalizing start with
  | nil => rfl
  | cons d ds ih => simp [setForcesFrom, ih]

theorem getElem?_setForcesFrom (forces : Nat → Rat) (start i : Nat) (l : List Dof) :
    (setForcesFrom forces start l)[i]?
      = l[i]?.map (fun d => { d with force := forces (start + i) }) := by
  induction l generalizing start i with
  | nil => cases i <;> rfl
  | cons d ds ih =>
    cases i with
    | zero => simp [setForcesFrom]
    | succ i =>
      have harith : start + 1 + i = start + (i + 1) := by omega
      simp [setForcesFrom, ih (start + 1) i, harith]

theorem getElem?_syncStep_of_name_ne {skel : List Dof} {k : Nat} {d : Dof}
    (sensed : String → Rat × Rat) (nm : String) (hk : skel[k]? = some d)
    (hne : d.name ≠ nm) : (syncStep sensed skel nm)[k]? = some d := by
  rcases h : getDofIdx skel nm with _ | i
  · simp [syncStep, h, hk]
  · simp only [syncStep, h]
    rcases getDofIdx_spec h with ⟨d', hd', hnm⟩
    have hik : k ≠ i := by
      intro he
      rw [he, hd'] at hk
      exact hne ((Option.some_inj.mp hk) ▸ hnm)
    rw [getElem?_updNth_ne _ hik, hk]

theorem getElem?_writeSensedState_not_controlled {skel : List Dof} {k : Nat}
    {d : Dof} (sensed : String → Rat × Rat) (handles : List String)
    (hk : skel[k]? = some d) (hmem : d.name ∉ handles) :
    (writeSensedState sensed skel handles)[k]? = some d := by
  induction handles generalizing skel with
  | nil => exact hk
  | cons h hs ih =>
    have hsplit : d.name ≠ h ∧ d.name ∉ hs := by
      constructor
      · intro he; exact hmem (he ▸ List.mem_cons_self h hs)
      · intro hin; exact hmem (List.mem_cons_of_mem h hin)
    exact ih (getElem?_syncStep_of_name_ne sensed h hk hsplit.1) hsplit.2

theorem accel_zero_syncStep {skel : List Dof} {j : Nat}
    (sensed : String → Rat × Rat) (nm : String)
    (h0 : skel[j]?.map Dof.accel = some 0) :
    ((syncStep sensed skel nm)[j]?).map Dof.accel = some 0 := by
  rcases h : getDofIdx skel nm with _ | i
  · simpa [syncStep, h] using h0
  · simp only [syncStep, h]
    by_cases hij : j = i
    · subst hij
      rw [getElem?_updNth_self]
      rcases hj : skel[j]? with _ | d
      · rw [hj] at h0; simp at h0
      · simp [writeDofState]
    · rw [getElem?_updNth_ne _ hij]
      exact h0

theorem accel_zero_writeSensedState_post {skel : List Dof} {j : Nat}
    (sensed : String → Rat × Rat) (handles : List String)
    (h0 : skel[j]?.map Dof.accel = some 0) :
    ((writeSensedState sensed skel handles)[j]?).map Dof.accel = some 0 := by
  induction handles generalizing skel with
  | nil => exact h0
  | cons h hs ih => exact ih (accel_zero_syncStep sensed h h0)

theorem accel_zero_after_sync (sensed : String → Rat × Rat) :
    ∀ (handles : List String) (skel : List Dof) (nm : String), nm ∈ handles →
      ∀ j, getDofIdx (writeSensedState sensed skel handles) nm = some j →
      ((writeSensedState sensed skel handles)[j]?).map Dof.accel = some 0 := by
  intro handles
  induction handles with
  | nil =>
    intro skel nm h
    simp at h
  | cons h hs ih =>
    intro skel nm hmem j hidx
    rcases List.mem_cons.mp hmem with he | hmem'
    · subst he
      rw [getDofIdx_writeSensedState] at hidx
      rcases getDofIdx_spec hidx with ⟨d, hd, hnm⟩
      have hstep : ((syncStep sensed skel nm)[j]?).map Dof.accel = some 0 := by
        simp only [syncStep, hidx]
        rw [getElem?_updNth_self, hd]
        simp [writeDofState]
      show ((writeSensedState sensed (syncStep sensed skel nm) hs)[j]?).map Dof.accel = some 0
      exact accel_zero_writeSensedState_post sensed hs hstep
    · exact ih (syncStep sensed skel h) nm hmem' j hidx

/-! ### Characterization of the `init` loops -/

theorem dofNameAt_getDofIdx {skel : List Dof} {nm : String} {i : Nat}
    (h : getDofIdx skel nm = some i) : dofNameAt skel i = nm := by
  rcases getDofIdx_spec h with ⟨d, hd, hnm⟩
  simp [dofNameAt, hd, hnm]

theorem idxOfName_append_of_isSome {l₁ : List String} {nm : String} {i : Nat}
    (h : idxOfName l₁ nm = some i) (l₂ : List String) :
    idxOfName (l₁ ++ l₂) nm = some i := by
  induction l₁ generalizing i with
  | nil => simp [idxOfName] at h
  | cons s ss ih =>
    by_cases hs : s = nm
    · simp [idxOfName, hs] at h ⊢
      exact h
    · simp [idxOfName, hs] at h ⊢
      rcases h with ⟨j, hj, hji⟩
      exact ⟨j, ih hj, hji⟩

theorem idxOfName_append_of_none {l₁ : List String} {nm : String}
    (h : idxOfName l₁ nm = none) (l₂ : List String) :
    idxOfName (l₁ ++ l₂) nm = (idxOfName l₂ nm).map (· + l₁.length) := by
  induction l₁ with
  | nil => simp [idxOfName]
  | cons s ss ih =>
    by_cases hs : s = nm
    · simp [idxOfName, hs] at h
    · have hss : idxOfName ss nm = none := by
        rcases ho : idxOfName ss nm with _ | j
        · rfl
        · simp [idxOfName, hs, ho] at h
      rw [List.cons_append]
      simp only [idxOfName, hs, if_false, ih hss, Option.map_map,
        List.length_cons]
      rcases idxOfName l₂ nm with _ | j
      · rfl
      · show some (j + ss.length + 1) = some (j + (ss.length + 1))
        exact congrArg some (by omega)

theorem jmapLookup_append_of_isSome {m : List (String × Nat)} {k : String}
    {w : Nat} (h : jmapLookup m k = some w) (m₂ : List (String × Nat)) :
    jmapLookup (m ++ m₂) k = some w := by
  induction m with
  | nil => simp [jmapLookup] at h
  | cons p ps ih =>
    by_cases hp : p.1 = k
    · simpa [jmapLookup, List.find?, hp] using h
    · have h' : jmapLookup ps k = some w := by
        simpa [jmapLookup, List.find?, hp] using h
      simpa [jmapLookup, List.find?, hp] using ih h'

theorem jmapLookup_append_of_none {m : List (String × Nat)} {k' : String}
    (h : jmapLookup m k' = none) (k : String) (v : Nat) :
    jmapLookup (m ++ [(k, v)]) k' = if k = k' then some v else none := by
  induction m with
  | nil =>
    by_cases hk : k = k'
    · subst hk
      simp [jmapLookup, List.find?]
    · simp [jmapLookup, List.find?, hk, fun hn : k' = k => hk hn.symm]
  | cons p ps ih =>
    by_cases hp : p.1 = k'
    · simp [jmapLookup, List.find?, hp] at h
    · simp only [jmapLookup, List.cons_append, List.find?, decide_eq_true_eq,
        hp, if_false] at h ⊢
      exact ih h

theorem resolveDofs_ok (skel : List Dof) :
    ∀ (rest pre : List String) (group : List Nat) (jmap : List (String × Nat)),
      group.length = pre.length →
      (∀ nm, jmapLookup jmap nm = idxOfName pre nm) →
      (∀ nm ∈ rest, (getDofIdx skel nm).isSome) →
      ∃ m, resolveDofs skel group jmap rest
          = .ok (group ++ rest.map (fun nm => (getDofIdx skel nm).getD 0), m)
        ∧ ∀ nm, jmapLookup m nm = idxOfName (pre ++ rest) nm := by
  intro rest
  induction rest with
  | nil =>
    intro pre group jmap hlen hmap hres
    exact ⟨jmap, by simp [resolveDofs], by simpa using hmap⟩
  | cons nm rest ih =>
    intro pre group jmap hlen hmap hres
    have hs : (getDofIdx skel nm).isSome := hres nm (List.mem_cons_self nm rest)
    rcases hi : getDofIdx skel nm with _ | i
    · rw [hi] at hs; simp at hs
    · have hmap' : ∀ nm', jmapLookup (emplace jmap nm group.length) nm'
          = idxOfName (pre ++ [nm]) nm' := by
        intro nm'
        rcases hpre : idxOfName pre nm' with _ | w
        · rw [idxOfName_append_of_none hpre]
          have hjm : jmapLookup jmap nm' = none := by rw [hmap, hpre]
          unfold emplace
          by_cases hnm : (jmapLookup jmap nm).isSome
          · have hne : nm ≠ nm' := by
              intro he
              rw [he, hjm] at hnm
              simp at hnm
            rw [if_pos hnm, hjm]
            simp [idxOfName, hne, fun hn : nm' = nm => hne hn.symm]
          · rw [if_neg hnm, jmapLookup_append_of_none hjm]
            simp [idxOfName, hlen]
        · rw [idxOfName_append_of_isSome hpre]
          have hjm : jmapLookup jmap nm' = some w := by rw [hmap, hpre]
          unfold emplace
          by_cases hnm : (jmapLookup jmap nm).isSome
          · rw [if_pos hnm]; exact hjm
          · rw [if_neg hnm]
            exact jmapLookup_append_of_isSome hjm [(nm, group.length)]
      have hlen' : (group ++ [i]).length = (pre ++ [nm]).length := by
        simp [hlen]
      have hres' : ∀ nm' ∈ rest, (getDofIdx skel nm').isSome := fun nm' h =>
        hres nm' (List.mem_cons_of_mem nm h)
      rcases ih (pre ++ [nm]) (group ++ [i]) (emplace jmap nm group.length)
        hlen' hmap' hres' with ⟨m, hok, hm⟩
      refine ⟨m, ?_, by simpa using hm⟩
      have hstep : resolveDofs skel group jmap (nm :: rest)
          = resolveDofs skel (group ++ [i]) (emplace jmap nm group.length) rest := by
        simp [resolveDofs, hi]
      rw [hstep, hok]
      simp [hi]

theorem resolveDofs_error (skel : List Dof) (bad : String)
    (hbad : getDofIdx skel bad = none) :
    ∀ (pre post : List String) (group : List Nat) (jmap : List (String × Nat)),
      (∀ nm ∈ pre, (getDofIdx skel nm).isSome) →
      resolveDofs skel group jmap (pre ++ bad :: post)
        = .error (.noDofNamed bad) := by
  intro pre
  induction pre with
  | nil =>
    intro post group jmap _
    simp [resolveDofs, hbad]
  | cons nm pre ih =>
    intro post group jmap hres
    have hs : (getDofIdx skel nm).isSome := hres nm (List.mem_cons_self nm pre)
    rcases hi : getDofIdx skel nm with _ | i
    · rw [hi] at hs; simp at hs
    · have hres' : ∀ nm' ∈ pre, (getDofIdx skel nm').isSome := fun nm' h =>
        hres nm' (List.mem_cons_of_mem nm h)
      simp only [List.cons_append, resolveDofs, hi]
      exact ih post _ _ hres'

theorem acquireHandles_ok (skel : List Dof) (hw : RobotHW) :
    ∀ idxs : List Nat, (∀ i ∈ idxs, dofNameAt skel i ∈ hw.effortJointNames) →
      acquireHandles skel hw idxs = .ok (idxs.map (dofNameAt skel)) := by
  intro idxs
  induction idxs with
  | nil => intro _; rfl
  | cons i rest ih =>
    intro hmem
    have hi : dofNameAt skel i ∈ hw.effortJointNames :=
      hmem i (List.mem_cons_self i rest)
    have hrest : ∀ j ∈ rest, dofNameAt skel j ∈ hw.effortJointNames := fun j h =>
      hmem j (List.mem_cons_of_mem i h)
    simp [acquireHandles, hi, ih hrest, Except.map]

theorem acquireHandles_error (skel : List Dof) (hw : RobotHW) (j : Nat)
    (hj : dofNameAt skel j ∉ hw.effortJointNames) :
    ∀ (pre post : List Nat),
      (∀ i ∈ pre, dofNameAt skel i ∈ hw.effortJointNames) →
      acquireHandles skel hw (pre ++ j :: post)
        = .error (.noJointHandle (dofNameAt skel j)) := by
  intro pre
  induction pre with
  | nil =>
    intro post _
    simp [acquireHandles, hj]
  | cons i pre ih =>
    intro post hmem
    have hi : dofNameAt skel i ∈ hw.effortJointNames :=
      hmem i (List.mem_cons_self i pre)
    have hpre : ∀ i' ∈ pre, dofNameAt skel i' ∈ hw.effortJointNames := fun i' h =>
      hmem i' (List.mem_cons_of_mem i h)
    simp [acquireHandles, hi, ih post hpre, Except.map]

theorem init_ok_of_valid
    (parse : String → Option (List Dof)) (hw : RobotHW) (n : NodeHandle)
    {desc : String} {skel : List Dof} {dofNames : List String}
    (hdesc : lookupParam n (resolvedDescriptionKey n) = some desc)
    (hparse : parse desc = some skel)
    (hjoints : n.jointsParam = some dofNames)
    (hres : ∀ nm ∈ dofNames, (getDofIdx skel nm).isSome)
    (hhw : ∀ nm ∈ dofNames, nm ∈ hw.effortJointNames) :
    ∃ m, init parse hw n = .ok
      { skeleton := skel
        controlledIdx := dofNames.map (fun nm => (getDofIdx skel nm).getD 0)
        controlledJointMap := m
        controlledHandleNames := dofNames
        stateHandleNames := acquireStateHandles hw skel }
      ∧ ∀ nm, jmapLookup m nm = idxOfName dofNames nm := by
  rcases resolveDofs_ok skel dofNames [] [] [] rfl (fun nm => rfl) hres
    with ⟨m, hok, hm⟩
  have hnmAt : ∀ nm ∈ dofNames, dofNameAt skel ((getDofIdx skel nm).getD 0) = nm := by
    intro nm hin
    rcases hi : getDofIdx skel nm with _ | i
    · exfalso
      have h2 := hres nm hin
      rw [hi] at h2
      simp at h2
    · simpa using dofNameAt_getDofIdx hi
  have hmem : ∀ i ∈ dofNames.map (fun nm => (getDofIdx skel nm).getD 0),
      dofNameAt skel i ∈ hw.effortJointNames := by
    intro i hin
    rcases List.mem_map.mp hin with ⟨nm, hnm, hi⟩
    rw [← hi, hnmAt nm hnm]
    exact hhw nm hnm
  have hacq := acquireHandles_ok skel hw _ hmem
  have hnames : (dofNames.map (fun nm => (getDofIdx skel nm).getD 0)).map
      (dofNameAt skel) = dofNames := by
    rw [List.map_map]
    have : ∀ nm ∈ dofNames,
        (dofNameAt skel ∘ fun nm => (getDofIdx skel nm).getD 0) nm = id nm := by
      intro nm hnm
      simpa using hnmAt nm hnm
    rw [List.map_congr_left this, List.map_id]
  refine ⟨m, ?_, fun nm => by simpa using hm nm⟩
  rw [List.nil_append] at hok
  simp only [init, hdesc, hparse, hjoints, hok, hacq, hnames]

theorem acquireHandles_ok_inv (skel : List Dof) (hw : RobotHW) :
    ∀ (idxs : List Nat) (hnames : List String),
      acquireHandles skel hw idxs = .ok hnames →
      hnames = idxs.map (dofNameAt skel) := by
  intro idxs
  induction idxs with
  | nil =>
    intro hnames h
    simp only [acquireHandles] at h
    cases h
    rfl
  | cons i rest ih =>
    intro hnames h
    by_cases hi : dofNameAt skel i ∈ hw.effortJointNames
    · rcases hr : acquireHandles skel hw rest with e | names'
      · rw [acquireHandles.eq_def] at h
        simp [hi, hr, Except.map] at h
      · rw [acquireHandles.eq_def] at h
        simp only [hi, if_true, hr, Except.map] at h
        cases h
        simp [ih names' hr]
    · simp [acquireHandles, hi] at h

theorem resolveDofs_ok_inv (skel : List Dof) :
    ∀ (rest : List String) (group : List Nat) (jmap : List (String × Nat))
      (g : List Nat) (m : List (String × Nat)),
      resolveDofs skel group jmap rest = .ok (g, m) →
      ∀ i ∈ g, i ∈ group ∨ ∃ nm, getDofIdx skel nm = some i := by
  intro rest
  induction rest with
  | nil =>
    intro group jmap g m h i hig
    simp only [resolveDofs] at h
    cases h
    exact .inl hig
  | cons nm rest ih =>
    intro group jmap g m h i hig
    rcases hnm : getDofIdx skel nm with _ | j
    · simp [resolveDofs, hnm] at h
    · simp only [resolveDofs, hnm] at h
      rcases ih _ _ _ _ h i hig with hin | hex
      · rcases List.mem_append.mp hin with h1 | h2
        · exact .inl h1
        · right
          refine ⟨nm, ?_⟩
          rw [hnm]
          simp at h2
          rw [h2]
      · exact .inr hex

theorem init_ok_inv {parse : String → Option (List Dof)} {hw : RobotHW}
    {n : NodeHandle} {st : ControllerState} (h : init parse hw n = .ok st) :
    st.controlledHandleNames = st.controlledIdx.map (dofNameAt st.skeleton)
    ∧ ∀ i ∈ st.controlledIdx, ∃ d, st.skeleton[i]? = some d := by
  simp only [init] at h
  rcases h1 : lookupParam n (resolvedDescriptionKey n) with _ | desc
  · simp only [h1] at h
    exact Except.noConfusion h
  simp only [h1] at h
  rcases h2 : parse desc with _ | skel
  · simp only [h2] at h
    exact Except.noConfusion h
  simp only [h2] at h
  rcases h3 : n.jointsParam with _ | dofNames
  · simp only [h3] at h
    exact Except.noConfusion h
  simp only [h3] at h
  rcases h4 : resolveDofs skel [] [] dofNames with e | gm
  · simp only [h4] at h
    exact Except.noConfusion h
  obtain ⟨g, m⟩ := gm
  simp only [h4] at h
  rcases h5 : acquireHandles skel hw g with e | hnames
  · simp only [h5] at h
    exact Except.noConfusion h
  simp only [h5] at h
  have hst : st = ⟨skel, g, m, hnames, acquireStateHandles hw skel⟩ := by
    cases h
    rfl
  subst hst
  constructor
  · exact acquireHandles_ok_inv skel hw g hnames h5
  · intro i hig
    rcases resolveDofs_ok_inv skel dofNames [] [] g m h4 i hig with hin | ⟨nm, hnm⟩
    · simp at hin
    · rcases getDofIdx_spec hnm with ⟨d, hd, _⟩
      exact ⟨d, hd⟩

theorem update_snd_length (solve : List Dof → Nat → Rat)
    (sensed : String → Rat × Rat) (st : ControllerState) :
    (update solve sensed st).2.length = st.controlledIdx.length := by
  simp [update]

theorem update_snd_getElem? (solve : List Dof → Nat → Rat)
    (sensed : String → Rat × Rat) (st : ControllerState) {i : Nat}
    (hlt : i < st.controlledIdx.length) :
    (update solve sensed st).2[i]?
      = some (st.controlledHandleNames.getD i "",
          readForce (update solve sensed st).1.skeleton (st.controlledIdx.getD i 0)) := by
  simp [update, List.getElem?_range hlt]

/-- On the concrete fixtures, `init` succeeds and produces `wState`. -/
theorem wInitOk : init wParse wHW wNode = .ok wState := by rfl

/-! ### The claims -/

/-- Claim C1: on every tick of `update`, for every controlled DOF whose
by-name lookup in the full model succeeds, the model's acceleration for that
DOF is exactly zero immediately before the inverse-dynamics solve is invoked
(the second conjunct pins down that the skeleton handed to
`computeInverseDynamics` by `update` is exactly the examined one), regardless
of the sensed position and velocity values written in the same pass. -/
theorem controlled_accel_zero_before_solve
    (solve : List Dof → Nat → Rat) (sensed : String → Rat × Rat)
    (st : ControllerState) (nm : String) (j : Nat)
    (hmem : nm ∈ st.controlledHandleNames)
    (hidx : getDofIdx (writeSensedState sensed st.skeleton st.controlledHandleNames) nm
      = some j) :
    ((writeSensedState sensed st.skeleton st.controlledHandleNames)[j]?).map Dof.accel
      = some 0
    ∧ (update solve sensed st).1.skeleton
        = computeInverseDynamics solve
            (writeSensedState sensed st.skeleton st.controlledHandleNames) :=
  ⟨accel_zero_after_sync sensed st.controlledHandleNames st.skeleton nm hmem j hidx, rfl⟩

/-- Witness for C1 on a concrete two-controlled-DOF configuration. -/
theorem controlled_accel_zero_before_solve_witness :
    ((writeSensedState wSensed wState.skeleton wState.controlledHandleNames)[0]?).map
      Dof.accel = some 0
    ∧ (update wSolve wSensed wState).1.skeleton
        = computeInverseDynamics wSolve
            (writeSensedState wSensed wState.skeleton wState.controlledHandleNames) :=
  controlled_accel_zero_before_solve wSolve wSensed wState "shoulder" 0
    (by decide) (by decide)

/-- Claim C2: after a successful `init`, every tick of `update` issues exactly
one torque command per controlled DOF (the trace length equals the number of
controlled DOFs), in the order of the controlled-DOF list, and the i-th
command carries the i-th controlled DOF's joint name together with the
generalized force read back from that DOF of the model after the
inverse-dynamics solve. -/
theorem one_command_per_controlled_dof_in_order
    {parse : String → Option (List Dof)} {hw : RobotHW} {n : NodeHandle}
    {st : ControllerState} (hinit : init parse hw n = .ok st)
    (solve : List Dof → Nat → Rat) (sensed : String → Rat × Rat) :
    (update solve sensed st).2.length = st.controlledIdx.length
    ∧ ∀ (i idx : Nat), st.controlledIdx[i]? = some idx →
        st.controlledHandleNames[i]? = some (dofNameAt st.skeleton idx)
        ∧ (update solve sensed st).2[i]?
            = some (dofNameAt st.skeleton idx,
                readForce (update solve sensed st).1.skeleton idx) := by
  obtain ⟨hnames, _⟩ := init_ok_inv hinit
  refine ⟨update_snd_length solve sensed st, ?_⟩
  intro i idx hidx
  have hlt : i < st.controlledIdx.length := (List.getElem?_eq_some.mp hidx).1
  have hn : st.controlledHandleNames[i]? = some (dofNameAt st.skeleton idx) := by
    rw [hnames, List.getElem?_map, hidx]
    rfl
  refine ⟨hn, ?_⟩
  rw [update_snd_getElem? solve sensed st hlt]
  rw [List.getD_eq_getElem?_getD, hn, List.getD_eq_getElem?_getD, hidx]
  rfl

/-- Witness for C2 on a concrete valid configuration. -/
theorem one_command_per_controlled_dof_in_order_witness :
    (update wSolve wSensed wState).2.length = wState.controlledIdx.length
    ∧ ∀ (i idx : Nat), wState.controlledIdx[i]? = some idx →
        wState.controlledHandleNames[i]? = some (dofNameAt wState.skeleton idx)
        ∧ (update wSolve wSensed wState).2[i]?
            = some (dofNameAt wState.skeleton idx,
                readForce (update wSolve wSensed wState).1.skeleton idx) :=
  one_command_per_controlled_dof_in_order wInitOk wSolve wSensed

theorem dofNameAt_resolved {skel : List Dof} {nm : String}
    (h : (getDofIdx skel nm).isSome) :
    dofNameAt skel ((getDofIdx skel nm).getD 0) = nm := by
  rcases hi : getDofIdx skel nm with _ | i
  · rw [hi] at h
    simp at h
  · simpa using dofNameAt_getDofIdx hi

/-- Claim C3: whenever the description document is present under the resolved
key, parses into a model, the controlled-joint list is present, every listed
name resolves to a DOF of the model and every controlled joint's command
handle is acquirable, `init` succeeds, the handle list and the controlled
group follow the input list's order DOF by DOF, and the name-to-index map
sends each name to its position in the input list. -/
theorem init_valid_config_succeeds_in_order
    (parse : String → Option (List Dof)) (hw : RobotHW) (n : NodeHandle)
    (desc : String) (skel : List Dof) (dofNames : List String)
    (hdesc : lookupParam n (resolvedDescriptionKey n) = some desc)
    (hparse : parse desc = some skel)
    (hjoints : n.jointsParam = some dofNames)
    (hres : ∀ nm ∈ dofNames, (getDofIdx skel nm).isSome)
    (hhw : ∀ nm ∈ dofNames, nm ∈ hw.effortJointNames) :
    ∃ st, init parse hw n = .ok st
      ∧ st.controlledHandleNames = dofNames
      ∧ st.controlledIdx.length = dofNames.length
      ∧ (∀ (i : Nat) (nm : String), dofNames[i]? = some nm →
          ∃ idx d, st.controlledIdx[i]? = some idx ∧ st.skeleton[idx]? = some d
            ∧ d.name = nm)
      ∧ ∀ nm, jmapLookup st.controlledJointMap nm = idxOfName dofNames nm := by
  rcases init_ok_of_valid parse hw n hdesc hparse hjoints hres hhw with ⟨m, hok, hm⟩
  refine ⟨_, hok, rfl, by simp, ?_, hm⟩
  intro i nm hi
  have hmem : nm ∈ dofNames := List.getElem?_mem hi
  have hsome := hres nm hmem
  rcases hj : getDofIdx skel nm with _ | j
  · rw [hj] at hsome
    simp at hsome
  · rcases getDofIdx_spec hj with ⟨d, hd, hdnm⟩
    refine ⟨j, d, ?_, hd, hdnm⟩
    show (dofNames.map (fun nm => (getDofIdx skel nm).getD 0))[i]? = some j
    rw [List.getElem?_map, hi]
    simp [hj]

/-- Witness for C3 on the concrete valid configuration. -/
theorem init_valid_config_succeeds_in_order_witness :
    ∃ st, init wParse wHW wNode = .ok st
      ∧ st.controlledHandleNames = ["shoulder", "elbow"]
      ∧ st.controlledIdx.length = (["shoulder", "elbow"] : List String).length
      ∧ (∀ (i : Nat) (nm : String), (["shoulder", "elbow"] : List String)[i]? = some nm →
          ∃ idx d, st.controlledIdx[i]? = some idx ∧ st.skeleton[idx]? = some d
            ∧ d.name = nm)
      ∧ ∀ nm, jmapLookup st.controlledJointMap nm
          = idxOfName ["shoulder", "elbow"] nm :=
  init_valid_config_succeeds_in_order wParse wHW wNode "urdf" wSkel
    ["shoulder", "elbow"] (by decide) (by decide) (by decide)
    (by decide) (by decide)

/-- Claim C4: when some name in the controlled-joint list does not resolve to
a DOF of the model, `init` fails immediately at the first unresolvable name —
the reported error names exactly the first name of the list that is absent
from the model — and no controller state is produced. -/
theorem init_fails_at_first_unresolvable_name
    (parse : String → Option (List Dof)) (hw : RobotHW) (n : NodeHandle)
    (desc : String) (skel : List Dof) (pre : List String) (bad : String)
    (post : List String)
    (hdesc : lookupParam n (resolvedDescriptionKey n) = some desc)
    (hparse : parse desc = some skel)
    (hjoints : n.jointsParam = some (pre ++ bad :: post))
    (hpre : ∀ nm ∈ pre, (getDofIdx skel nm).isSome)
    (hbad : getDofIdx skel bad = none) :
    init parse hw n = .error (.noDofNamed bad) := by
  simp only [init, hdesc, hparse, hjoints,
    resolveDofs_error skel bad hbad pre post [] [] hpre]

/-- Witness for C4: `gripper` is absent from the model. -/
theorem init_fails_at_first_unresolvable_name_witness :
    init wParse wHW
      { strParams := [("/robot_description", "urdf")]
        jointsParam := some ["shoulder", "gripper", "elbow"] }
      = .error (.noDofNamed "gripper") :=
  init_fails_at_first_unresolvable_name wParse wHW _ "urdf" wSkel
    ["shoulder"] "gripper" ["elbow"] (by decide) (by decide) (by decide)
    (by decide) (by decide)

/-- Claim C5: when every controlled name resolves but some controlled DOF's
torque-command handle cannot be acquired, `init` fails immediately at the
first controlled DOF without a handle — the reported error names exactly
that joint. -/
theorem init_fails_at_first_missing_handle
    (parse : String → Option (List Dof)) (hw : RobotHW) (n : NodeHandle)
    (desc : String) (skel : List Dof) (pre : List String) (bad : String)
    (post : List String)
    (hdesc : lookupParam n (resolvedDescriptionKey n) = some desc)
    (hparse : parse desc = some skel)
    (hjoints : n.jointsParam = some (pre ++ bad :: post))
    (hres : ∀ nm ∈ pre ++ bad :: post, (getDofIdx skel nm).isSome)
    (hpre : ∀ nm ∈ pre, nm ∈ hw.effortJointNames)
    (hbad : bad ∉ hw.effortJointNames) :
    init parse hw n = .error (.noJointHandle bad) := by
  rcases resolveDofs_ok skel (pre ++ bad :: post) [] [] [] rfl (fun nm => rfl) hres
    with ⟨m, hok, _⟩
  rw [List.nil_append] at hok
  have hgroup : (pre ++ bad :: post).map (fun nm => (getDofIdx skel nm).getD 0)
      = pre.map (fun nm => (getDofIdx skel nm).getD 0)
        ++ ((getDofIdx skel bad).getD 0)
          :: post.map (fun nm => (getDofIdx skel nm).getD 0) := by
    simp
  have hbadname : dofNameAt skel ((getDofIdx skel bad).getD 0) = bad :=
    dofNameAt_resolved (hres bad (by simp))
  have hprenames : ∀ i ∈ pre.map (fun nm => (getDofIdx skel nm).getD 0),
      dofNameAt skel i ∈ hw.effortJointNames := by
    intro i hin
    rcases List.mem_map.mp hin with ⟨nm, hnm, hi⟩
    rw [← hi, dofNameAt_resolved (hres nm (by simp [hnm]))]
    exact hpre nm hnm
  have hacq := acquireHandles_error skel hw ((getDofIdx skel bad).getD 0)
    (by rw [hbadname]; exact hbad)
    (pre.map (fun nm => (getDofIdx skel nm).getD 0))
    (post.map (fun nm => (getDofIdx skel nm).getD 0)) hprenames
  rw [hbadname] at hacq
  rw [hgroup] at hok
  simp only [init, hdesc, hparse, hjoints, hok, hacq]

/-- Witness for C5: `elbow` resolves but has no command handle. -/
theorem init_fails_at_first_missing_handle_witness :
    init wParse
      { effortJointNames := ["shoulder"], jointStateNames := ["wrist"] }
      wNode
      = .error (.noJointHandle "elbow") :=
  init_fails_at_first_missing_handle wParse
    { effortJointNames := ["shoulder"], jointStateNames := ["wrist"] }
    wNode "urdf" wSkel ["shoulder"] "elbow" [] (by decide) (by decide)
    (by decide) (by decide) (by decide) (by decide)

/-- Claim C6: when all fatal conditions are absent, a non-controlled DOF
whose read-only state handle cannot be acquired does not make `init` fail:
`init` still succeeds, the DOF is omitted from the state-handle list, and on
every tick the state-write pass leaves that DOF's model entry untouched. -/
theorem missing_state_handle_nonfatal
    (parse : String → Option (List Dof)) (hw : RobotHW) (n : NodeHandle)
    (desc : String) (skel : List Dof) (dofNames : List String)
    (k : Nat) (d : Dof)
    (hdesc : lookupParam n (resolvedDescriptionKey n) = some desc)
    (hparse : parse desc = some skel)
    (hjoints : n.jointsParam = some dofNames)
    (hres : ∀ nm ∈ dofNames, (getDofIdx skel nm).isSome)
    (hhw : ∀ nm ∈ dofNames, nm ∈ hw.effortJointNames)
    (hk : skel[k]? = some d)
    (hnotctl : d.name ∉ dofNames)
    (hnostate : d.name ∉ hw.jointStateNames) :
    ∃ st, init parse hw n = .ok st
      ∧ d.name ∉ st.stateHandleNames
      ∧ ∀ sensed : String → Rat × Rat,
          (writeSensedState sensed st.skeleton st.controlledHandleNames)[k]?
            = some d := by
  rcases init_ok_of_valid parse hw n hdesc hparse hjoints hres hhw with ⟨m, hok, _⟩
  refine ⟨_, hok, ?_, ?_⟩
  · show d.name ∉ acquireStateHandles hw skel
    intro hin
    have := (List.mem_filter.mp hin).2
    simp at this
    exact hnostate this
  · intro sensed
    exact getElem?_writeSensedState_not_controlled sensed dofNames hk hnotctl

/-- Witness for C6: no state handle for `wrist` (non-controlled), `init`
still succeeds. -/
theorem missing_state_handle_nonfatal_witness :
    ∃ st, init wParse
        { effortJointNames := ["shoulder", "elbow"], jointStateNames := [] }
        wNode = .ok st
      ∧ "wrist" ∉ st.stateHandleNames
      ∧ ∀ sensed : String → Rat × Rat,
          (writeSensedState sensed st.skeleton st.controlledHandleNames)[2]?
            = some { name := "wrist", pos := 9, vel := 10, accel := 11, force := 12 } :=
  missing_state_handle_nonfatal wParse
    { effortJointNames := ["shoulder", "elbow"], jointStateNames := [] }
    wNode "urdf" wSkel ["shoulder", "elbow"] 2
    { name := "wrist", pos := 9, vel := 10, accel := 11, force := 12 }
    (by decide) (by decide) (by decide) (by decide) (by decide) (by decide)
    (by decide) (by decide)

theorem writeSensedState_skip {skel : List Dof} {nm : String}
    (habsent : nm ∉ skel.map Dof.name) (sensed : String → Rat × Rat) :
    ∀ pre post : List String,
      writeSensedState sensed skel (pre ++ nm :: post)
        = writeSensedState sensed skel (pre ++ post) := by
  intro pre
  induction pre generalizing skel with
  | nil =>
    intro post
    show writeSensedState sensed (syncStep sensed skel nm) post
      = writeSensedState sensed skel post
    have hnone : getDofIdx skel nm = none := getDofIdx_none_of_not_mem habsent
    simp only [syncStep, hnone]
  | cons p pre ih =>
    intro post
    show writeSensedState sensed (syncStep sensed skel p) (pre ++ nm :: post)
      = writeSensedState sensed (syncStep sensed skel p) (pre ++ post)
    apply ih
    rw [map_name_syncStep]
    exact habsent

/-- Claim C7: if the defensive by-name lookup of a controlled handle's joint
fails on a tick (its name is absent from the model), that DOF is skipped for
that cycle only — the state-write pass produces exactly what the remaining
handles alone would produce — and `update` still completes, issuing a torque
command for every controlled DOF. -/
theorem missing_dof_skipped_for_cycle
    (solve : List Dof → Nat → Rat) (sensed : String → Rat × Rat)
    (st : ControllerState) (pre post : List String) (nm : String)
    (hnames : st.controlledHandleNames = pre ++ nm :: post)
    (habsent : nm ∉ st.skeleton.map Dof.name) :
    writeSensedState sensed st.skeleton st.controlledHandleNames
      = writeSensedState sensed st.skeleton (pre ++ post)
    ∧ (update solve sensed st).2.length = st.controlledIdx.length := by
  constructor
  · rw [hnames]
    exact writeSensedState_skip habsent sensed pre post
  · exact update_snd_length solve sensed st

/-- Witness for C7: a `ghost` handle whose joint is absent from the model. -/
theorem missing_dof_skipped_for_cycle_witness :
    writeSensedState wSensed wSkel ["shoulder", "ghost", "elbow"]
      = writeSensedState wSensed wSkel (["shoulder"] ++ ["elbow"])
    ∧ (update wSolve wSensed
        { wState with controlledHandleNames := ["shoulder", "ghost", "elbow"] }).2.length
      = ({ wState with
            controlledHandleNames := ["shoulder", "ghost", "elbow"] } :
          ControllerState).controlledIdx.length :=
  missing_dof_skipped_for_cycle wSolve wSensed
    { wState with controlledHandleNames := ["shoulder", "ghost", "elbow"] }
    ["shoulder"] ["elbow"] "ghost" (by decide) (by decide)

/-- Claim C8: `init` reads the description under the key configured by
`robot_description_parameter`, defaulting to `/robot_description` when that
option is unset, and returns failure when no description is found under the
resolved key. -/
theorem robot_description_key_default_and_required
    (parse : String → Option (List Dof)) (hw : RobotHW) (n : NodeHandle) :
    (lookupParam n "robot_description_parameter" = none →
      resolvedDescriptionKey n = "/robot_description")
    ∧ (lookupParam n (resolvedDescriptionKey n) = none →
      init parse hw n
        = .error (.missingRobotDescription (resolvedDescriptionKey n))) := by
  constructor
  · intro h
    simp [resolvedDescriptionKey, h]
  · intro h
    simp only [init, h]

/-- Witness for C8 on a configuration with no parameters at all. -/
theorem robot_description_key_default_and_required_witness :
    resolvedDescriptionKey { strParams := [], jointsParam := none }
      = "/robot_description"
    ∧ init wParse wHW { strParams := [], jointsParam := none }
        = .error (.missingRobotDescription
            (resolvedDescriptionKey { strParams := [], jointsParam := none })) :=
  ⟨(robot_description_key_default_and_required wParse wHW
      { strParams := [], jointsParam := none }).1 (by decide),
   (robot_description_key_default_and_required wParse wHW
      { strParams := [], jointsParam := none }).2 (by decide)⟩

theorem runTicks_uncontrolled_frame (solve : List Dof → Nat → Rat) :
    ∀ (ticks : List (String → Rat × Rat)) (st : ControllerState) (k : Nat) (d : Dof),
      st.skeleton[k]? = some d → d.name ∉ st.controlledHandleNames →
      ∃ d', (runTicks solve st ticks).skeleton[k]? = some d'
        ∧ d'.name = d.name ∧ d'.pos = d.pos ∧ d'.vel = d.vel
        ∧ d'.accel = d.accel := by
  intro ticks
  induction ticks with
  | nil =>
    intro st k d hk _
    exact ⟨d, hk, rfl, rfl, rfl, rfl⟩
  | cons sensed rest ih =>
    intro st k d hk hun
    have h1 : (writeSensedState sensed st.skeleton st.controlledHandleNames)[k]?
        = some d :=
      getElem?_writeSensedState_not_controlled sensed st.controlledHandleNames hk hun
    have h2 : (update solve sensed st).1.skeleton[k]?
        = some { d with force :=
            (solve (writeSensedState sensed st.skeleton st.controlledHandleNames)
              (0 + k)) } := by
      show (setForcesFrom
        (solve (writeSensedState sensed st.skeleton st.controlledHandleNames)) 0
        (writeSensedState sensed st.skeleton st.controlledHandleNames))[k]? = _
      rw [getElem?_setForcesFrom, h1]
      rfl
    rcases ih (update solve sensed st).1 k _ h2 hun with ⟨d', hd', hn, hp, hv, ha⟩
    exact ⟨d', hd', hn, hp, hv, ha⟩

/-- Claim C9: the read-only state-handle list is never read by `update` —
replacing it changes neither the post-tick model nor the command trace — and
only controlled DOFs are written on a tick, so across any sequence of ticks
an uncontrolled DOF's position, velocity and acceleration remain at their
initial model values, even when its state handle was acquired. -/
theorem state_handles_never_read_uncontrolled_static
    (solve : List Dof → Nat → Rat) (st : ControllerState) (k : Nat) (d : Dof)
    (hk : st.skeleton[k]? = some d)
    (hun : d.name ∉ st.controlledHandleNames) :
    (∀ (sensed : String → Rat × Rat) (l : List String),
        (update solve sensed { st with stateHandleNames := l }).1.skeleton
          = (update solve sensed st).1.skeleton
      ∧ (update solve sensed { st with stateHandleNames := l }).2
          = (update solve sensed st).2)
    ∧ ∀ ticks : List (String → Rat × Rat), ∃ d',
        (runTicks solve st ticks).skeleton[k]? = some d'
        ∧ d'.name = d.name ∧ d'.pos = d.pos ∧ d'.vel = d.vel
        ∧ d'.accel = d.accel :=
  ⟨fun _ _ => ⟨rfl, rfl⟩,
   fun ticks => runTicks_uncontrolled_frame solve ticks st k d hk hun⟩

/-- Witness for C9: `wrist` (uncontrolled, state handle acquired) stays at
its initial model state over two ticks. -/
theorem state_handles_never_read_uncontrolled_static_witness :
    (∀ (sensed : String → Rat × Rat) (l : List String),
        (update wSolve sensed { wState with stateHandleNames := l }).1.skeleton
          = (update wSolve sensed wState).1.skeleton
      ∧ (update wSolve sensed { wState with stateHandleNames := l }).2
          = (update wSolve sensed wState).2)
    ∧ ∀ ticks : List (String → Rat × Rat), ∃ d',
        (runTicks wSolve wState ticks).skeleton[2]? = some d'
        ∧ d'.name = "wrist" ∧ d'.pos = 9 ∧ d'.vel = 10 ∧ d'.accel = 11 :=
  state_handles_never_read_uncontrolled_static wSolve wState 2
    { name := "wrist", pos := 9, vel := 10, accel := 11, force := 12 }
    (by decide) (by decide)

/-- Claim C10: the command-output loop performs no defensive check: when a
controlled handle's by-name model lookup fails in the state-write pass (the
group still referencing the DOF object, e.g. after a rename), the DOF's
model entry is left entirely stale for that tick, yet a torque command is
still written through that handle, computed by the solve from the stale
state. -/
theorem command_written_despite_failed_lookup
    (solve : List Dof → Nat → Rat) (sensed : String → Rat × Rat)
    (st : ControllerState) (i idx : Nat) (hnm : String) (d : Dof)
    (hhandle : st.controlledHandleNames[i]? = some hnm)
    (habsent : hnm ∉ st.skeleton.map Dof.name)
    (hidx : st.controlledIdx[i]? = some idx)
    (hd : st.skeleton[idx]? = some d)
    (hdun : d.name ∉ st.controlledHandleNames) :
    (writeSensedState sensed st.skeleton st.controlledHandleNames)[idx]? = some d
    ∧ (update solve sensed st).2[i]?
        = some (hnm,
            solve (writeSensedState sensed st.skeleton st.controlledHandleNames)
              idx) := by
  have h1 : (writeSensedState sensed st.skeleton st.controlledHandleNames)[idx]?
      = some d :=
    getElem?_writeSensedState_not_controlled sensed st.controlledHandleNames hd hdun
  refine ⟨h1, ?_⟩
  have hlt : i < st.controlledIdx.length := (List.getElem?_eq_some.mp hidx).1
  rw [update_snd_getElem? solve sensed st hlt]
  rw [List.getD_eq_getElem?_getD, hhandle, List.getD_eq_getElem?_getD, hidx]
  have h2 : readForce (update solve sensed st).1.skeleton idx
      = solve (writeSensedState sensed st.skeleton st.controlledHandleNames) idx := by
    show readForce (setForcesFrom
      (solve (writeSensedState sensed st.skeleton st.controlledHandleNames)) 0
      (writeSensedState sensed st.skeleton st.controlledHandleNames)) idx = _
    rw [readForce, getElem?_setForcesFrom, h1]
    simp
  simp only [Option.getD_some]
  rw [h2]

/-- Witness for C10: the stale `renamed` DOF still gets a `shoulder`
command. -/
theorem command_written_despite_failed_lookup_witness :
    (writeSensedState wSensed wStale.skeleton wStale.controlledHandleNames)[0]?
      = some { name := "renamed", pos := 1, vel := 2, accel := 3, force := 4 }
    ∧ (update wSolve wSensed wStale).2[0]?
        = some ("shoulder",
            wSolve (writeSensedState wSensed wStale.skeleton
              wStale.controlledHandleNames) 0) :=
  command_written_despite_failed_lookup wSolve wSensed wStale 0 0 "shoulder"
    { name := "renamed", pos := 1, vel := 2, accel := 3, force := 4 }
    (by decide) (by decide) (by decide) (by decide) (by decide)

end RewdControllers
